import Mathlib

/-!
Shallow embedding of the `packed_flags` Rust crate (gregovin/packed_flags)
and verification of the frozen specification claims against it.

Modelling conventions:
* Machine integers (`u32`, `u64`, `u128`, `usize`) are `Nat` with explicit
  `% 2^w` where shifted-out bits are discarded.  The target platform is
  64-bit, so `usize` has 64 bits and `Blong.INNER_SIZE = 64`.
* Rust panics (explicit `panic!`/`assert!`, debug-mode shift-overflow
  — shifting a `uN` by an amount `≥ N` —, debug-mode add/sub overflow,
  and `Vec` out-of-bounds indexing) are modelled by returning `none`.
  A `some` result is the state after a completed, non-panicking call.
* `Vec<usize>` is `List Nat`, low word first, as in the source.
-/

namespace PackedFlags

/-- The four fixed-width variants `B32`, `B64`, `B128`, `Bsize`
(src/bit32.rs, src/bit64.rs, src/bit128.rs, src/bitsize.rs) share this
shape: `inner: uW` backing word, `len: usize`.  The width `w` (32, 64,
128, or 64 for `Bsize` on a 64-bit platform) is passed to each operation;
the four Rust impls are textually identical up to that width. -/
structure Fx where
  inner : Nat
  len : Nat
deriving DecidableEq

/-- `lower_mask(point)` of the fixed-width variants (e.g. src/bit32.rs
lines 16-22): explicit panic when `point > w`; for `point = w` the Rust
expression `(1 << point) - 1` shifts a `uW` by `w`, which is a
debug-mode overflow panic.  Otherwise the mask `2^point - 1`. -/
def lowerMask (w point : Nat) : Option Nat :=
  if point > w then none
  else if point = w then none
  else some (2 ^ point - 1)

/-- `uper_mask(point)` (e.g. src/bit32.rs lines 45-51): explicit panic when
`point > w`; for `point = w` the expression `uW::MAX - (1 << point) + 1`
overflows the shift.  Otherwise `uW::MAX - 2^point + 1 = 2^w - 2^point`. -/
def uperMask (w point : Nat) : Option Nat :=
  if point > w then none
  else if point = w then none
  else some (2 ^ w - 2 ^ point)

namespace Fx

/-- `set_len` of the fixed-width variants (src/bit32.rs lines 87-91):
assert `new_len <= MAX_LENGTH`, set `len`, then `inner &= (1 << new_len) - 1`.
For `new_len = w` the shift `1 << w` is a debug overflow panic. -/
def setLen (w : Nat) (s : Fx) (newLen : Nat) : Option Fx :=
  if newLen > w then none
  else if newLen = w then none
  else some ⟨s.inner &&& (2 ^ newLen - 1), newLen⟩

/-- `insert` of the fixed-width variants (src/bit32.rs lines 93-104):
`new inner = (uper << 1) + (flag << index) + lower`.  The shift `uper << 1`
discards the top bit (`% 2^w`); the additions cannot overflow `uW`. -/
def insert (w : Nat) (s : Fx) (index : Nat) (flag : Bool) : Option Fx :=
  if index > s.len then none
  else if s.len = w then none
  else
    match uperMask w index, lowerMask w index with
    | some um, some lm =>
      let uper := s.inner &&& um
      let lower := s.inner &&& lm
      some ⟨((uper <<< 1) % 2 ^ w) + ((if flag then 1 else 0) <<< index) + lower, s.len + 1⟩
    | _, _ => none

/-- `remove` of the fixed-width variants (src/bit32.rs lines 106-117):
computes `uper_mask(index + 1)` (which panics when `index + 1 = w`),
returns the removed bit and `new inner = (uper >> 1) + lower`. -/
def remove (w : Nat) (s : Fx) (index : Nat) : Option (Bool × Fx) :=
  if index ≥ s.len then none
  else
    match uperMask w (index + 1), lowerMask w index with
    | some um, some lm =>
      let uper := s.inner &&& um
      let lower := s.inner &&& lm
      let out := (s.inner >>> index) &&& 1
      some (out = 1, ⟨(uper >>> 1) + lower, s.len - 1⟩)
    | _, _ => none

/-- `get` of the fixed-width variants (src/bit32.rs lines 124-130); for
`B64` the same behaviour arises from the trait-default `get` built on
`get_unchecked` (src/lib.rs).  Never panics. -/
def get (_w : Nat) (s : Fx) (index : Nat) : Option Bool :=
  if index < s.len then some ((s.inner >>> index) &&& 1 = 1) else none

/-- `set` of the fixed-width variants (src/bit32.rs lines 132-140):
`new inner = uper + (flag << index) + lower` with `uper_mask(index + 1)`
(panics when `index + 1 = w`). -/
def set (w : Nat) (s : Fx) (index : Nat) (flag : Bool) : Option Fx :=
  if index < s.len then
    match uperMask w (index + 1), lowerMask w index with
    | some um, some lm =>
      let uper := s.inner &&& um
      let lower := s.inner &&& lm
      some ⟨uper + ((if flag then 1 else 0) <<< index) + lower, s.len⟩
    | _, _ => none
  else none

/-- Trait-default `push` (src/flagls.rs lines 197-199): `insert(len, flag)`. -/
def push (w : Nat) (s : Fx) (flag : Bool) : Option Fx :=
  insert w s s.len flag

/-- Trait-default `pop` (src/flagls.rs lines 211-217):
`if len > 0 { Some(remove(len - 1)) } else { None }`.  The outer `Option`
is the panic monad; the inner `Option Bool` is Rust's return value. -/
def pop (w : Nat) (s : Fx) : Option (Option Bool × Fx) :=
  if s.len > 0 then (remove w s (s.len - 1)).map (fun r => (some r.1, r.2))
  else some (none, s)

end Fx

/-- The multi-word variant `Blong` (src/bitlong.rs lines 9-12):
`inner: Vec<usize>` (low word first) and `len: usize`.
`INNER_SIZE = usize::BITS = 64` on the modelled platform. -/
structure Blong where
  inner : List Nat
  len : Nat
deriving DecidableEq

namespace Blong

/-- `Blong::lower_mask` (src/bitlong.rs lines 15-21): explicit panic when
`inner_point > 64`; at `inner_point = 64` the shift `1 << 64` on a `usize`
is a debug overflow panic. -/
def lowerMask (p : Nat) : Option Nat :=
  if p > 64 then none
  else if p = 64 then none
  else some (2 ^ p - 1)

/-- `Blong::uper_mask` (src/bitlong.rs lines 58-64): explicit panic when
`inner_point > 64`; at `inner_point = 64` the shift overflows;
otherwise `usize::MAX - 2^p + 1 = 2^64 - 2^p`. -/
def uperMask (p : Nat) : Option Nat :=
  if p > 64 then none
  else if p = 64 then none
  else some (2 ^ 64 - 2 ^ p)

/-- `Blong::set_len` (src/bitlong.rs lines 97-114):
`t_len = (new_len + 63) / 64`, `m_len = ((new_len + 63) % 64) + 1`;
grow with zero words or drain down to `t_len` words; then, when
`t_len > 0`, mask the last word with `(1 << m_len) - 1`, which is a debug
overflow panic when `m_len = 64` (i.e. when `new_len` is a positive
multiple of 64). -/
def setLen (s : Blong) (newLen : Nat) : Option Blong :=
  let tLen := (newLen + 63) / 64
  let mLen := ((newLen + 63) % 64) + 1
  let resized :=
    if tLen > s.inner.length then s.inner ++ List.replicate (tLen - s.inner.length) 0
    else s.inner.take tLen
  if tLen > 0 then
    if mLen = 64 then none
    else some ⟨resized.set (tLen - 1) ((resized.getD (tLen - 1) 0) &&& (2 ^ mLen - 1)), newLen⟩
  else some ⟨resized, newLen⟩

/-- The carry loop of `Blong::insert` (src/bitlong.rs lines 131-136):
walk the words above the target word, shifting each left by one
(discarding its top bit into the running carry) and adding the incoming
carry at bit 0; returns the rewritten words and the final carry. -/
def shiftCarry (top : Nat) : List Nat → List Nat × Nat
  | [] => ([], top)
  | w :: ws =>
    let next := shiftCarry (w >>> 63) ws
    ((((w <<< 1) % 2 ^ 64) + top) :: next.1, next.2)

/-- `Blong::insert` (src/bitlong.rs lines 116-143).  Note the source
compares the target *word* index with `self.len` (the *bit* length) to
decide whether to push a fresh word — the word is pushed only when
`t_index == self.len`; otherwise `self.inner[t_index]` is accessed, which
panics when the word does not exist.  After the carry loop a new word is
pushed exactly when `index % 64 == 63`. -/
def insert (s : Blong) (index : Nat) (flag : Bool) : Option Blong :=
  if index > s.len then none
  else
    let tIndex := index / 64
    let mIndex := index % 64
    if tIndex = s.len then
      some ⟨s.inner ++ [if flag then 1 else 0], s.len + 1⟩
    else
      match s.inner.get? tIndex with
      | none => none
      | some w0 =>
        match lowerMask mIndex, uperMask mIndex with
        | some lm, some um =>
          let lower := w0 &&& lm
          let upper := w0 &&& um
          let top := w0 >>> 63
          let w0new := ((upper <<< 1) % 2 ^ 64) + ((if flag then 1 else 0) <<< mIndex) + lower
          let rest := shiftCarry top (s.inner.drop (tIndex + 1))
          let newInner := s.inner.take tIndex ++ w0new :: rest.1
          some ⟨if mIndex = 63 then newInner ++ [rest.2] else newInner, s.len + 1⟩
        | _, _ => none

/-- The borrow loop of `Blong::remove` (src/bitlong.rs lines 154-159),
expressed over the words strictly above the target word (low word first):
each word is shifted right by one and receives, at bit 63, the low bit of
the word above it; the low bit of the lowest processed word is returned
as the borrow passed into the target word. -/
def borrowDown : List Nat → List Nat × Nat
  | [] => ([], 0)
  | w :: ws =>
    let above := borrowDown ws
    (((w >>> 1) + (above.2 <<< 63)) :: above.1, w &&& 1)

/-- `Blong::remove` (src/bitlong.rs lines 145-167): `top_idx` starts at
`inner.len() - 1` (a debug underflow panic on an empty word vector), the
borrow loop runs down to the target word, then the target word is spliced
with `uper_mask(m_indx + 1)` (a panic when `index % 64 = 63`) and receives
the borrow at bit 63. -/
def remove (s : Blong) (index : Nat) : Option (Bool × Blong) :=
  if index ≥ s.len then none
  else if s.inner.length = 0 then none
  else
    let tIndex := index / 64
    let mIndx := index % 64
    let above := borrowDown (s.inner.drop (tIndex + 1))
    match s.inner.get? tIndex with
    | none => none
    | some w0 =>
      match uperMask (mIndx + 1), lowerMask mIndx with
      | some um, some lm =>
        let upper := w0 &&& um
        let lower := w0 &&& lm
        let out := (w0 >>> mIndx) &&& 1
        some (out = 1,
          ⟨s.inner.take tIndex ++ (lower + (upper >>> 1) + (above.2 <<< 63)) :: above.1,
           s.len - 1⟩)
      | _, _ => none

/-- `Index<usize> for Blong` (src/bitlong.rs lines 75-89): rejects only
`index > len` (so `index == len` passes the bound check), then reads
`self.inner[index / 64]`, which panics when that word does not exist. -/
def indexGet (s : Blong) (index : Nat) : Option Bool :=
  if index > s.len then none
  else
    match s.inner.get? (index / 64) with
    | none => none
    | some w => some ((w >>> (index % 64)) &&& 1 = 1)

/-- `Blong::get` (src/bitlong.rs lines 174-181): `Some(bit)` for
`index < len` — via `self.inner[t_index]`, which panics when the word is
missing — and `None` otherwise.  Outer `Option` is the panic monad. -/
def get (s : Blong) (index : Nat) : Option (Option Bool) :=
  if index < s.len then
    match s.inner.get? (index / 64) with
    | none => none
    | some w => some (some ((w >>> (index % 64)) &&& 1 = 1))
  else some none

/-- `Blong::set` (src/bitlong.rs lines 183-192): rewrite one word using
`uper_mask(m_index + 1)` (a panic when `index % 64 = 63`). -/
def set (s : Blong) (index : Nat) (flag : Bool) : Option Blong :=
  if index < s.len then
    match s.inner.get? (index / 64) with
    | none => none
    | some w0 =>
      match uperMask ((index % 64) + 1), lowerMask (index % 64) with
      | some um, some lm =>
        let upper := w0 &&& um
        let lower := w0 &&& lm
        some ⟨s.inner.set (index / 64)
                (upper + ((if flag then 1 else 0) <<< (index % 64)) + lower), s.len⟩
      | _, _ => none
  else none

/-- `BitXorAssign<&Self> for Blong` (src/bitlong.rs lines 223-233), as
written in the source: the overlapping words are combined with
`bitand_assign` (AND), and for every extra word of `rhs` the word
`rhs.inner()[1]` is pushed (panicking when `rhs` has fewer than two
words); finally `len = max`. -/
def xorAssign (s rhs : Blong) : Option Blong :=
  let k := min s.inner.length rhs.inner.length
  let merged := (List.zipWith (fun a b => a &&& b) s.inner rhs.inner) ++ s.inner.drop k
  if rhs.inner.length > k then
    match rhs.inner.get? 1 with
    | none => none
    | some w1 => some ⟨merged ++ List.replicate (rhs.inner.length - k) w1, max s.len rhs.len⟩
  else some ⟨merged, max s.len rhs.len⟩

/-- Trait-default `push` for `Blong` (src/flagls.rs lines 197-199). -/
def push (s : Blong) (flag : Bool) : Option Blong :=
  insert s s.len flag

/-- Trait-default `pop` for `Blong` (src/flagls.rs lines 211-217). -/
def pop (s : Blong) : Option (Option Bool × Blong) :=
  if s.len > 0 then (remove s (s.len - 1)).map (fun r => (some r.1, r.2))
  else some (none, s)

/-- `From<Bsize> for Blong` (src/bitlong.rs lines 316-321): always the
one-element word vector `vec![value.as_inner()]`, with the length copied. -/
def fromBsize (v : Fx) : Blong :=
  ⟨[v.inner], v.len⟩

end Blong

/-- The integer denoted by a `Blong` word vector (word `i` carries bits
`64*i ..< 64*(i+1)`, as documented at src/bitlong.rs lines 25-27): the
raw multi-word backing storage read as a single number. -/
def wordsVal : List Nat → Nat
  | [] => 0
  | w :: ws => w + 2 ^ 64 * wordsVal ws

/-- `From<B32> for B64` (src/bit64.rs lines 194-199): widening, copies
`inner` (losslessly into the wider word) and `len`. -/
def fromB32toB64 (v : Fx) : Fx :=
  ⟨v.inner, v.len⟩

/-- `TryFrom<B128> for B64` (src/bit64.rs lines 200-210), as written in
the source: errors when `len < MAX_LENGTH` (64), and otherwise unwraps
`u128 -> u64`, which panics when the value does not fit in 64 bits. -/
def tryFromB128toB64 (v : Fx) : Option (Except Unit Fx) :=
  if v.len < 64 then some (Except.error ())
  else if v.inner < 2 ^ 64 then some (Except.ok ⟨v.inner, v.len⟩)
  else none

/-- The summation loop of `TryFrom<Blong> for B32` (src/bit32.rs lines
262-267): each word must fit in a `u32` (`expect` panic otherwise) and is
multiplied by `1_u32.checked_shl(64 * i).unwrap_or(0)`, which is `1` for
`i = 0` and `0` for every later word. -/
def blongWordsToU32 : List Nat → Nat → Option Nat
  | [], _ => some 0
  | w :: ws, i =>
    if w < 2 ^ 32 then
      (blongWordsToU32 ws (i + 1)).map
        (fun r => w * (if 64 * i < 32 then 2 ^ (64 * i) else 0) + r)
    else none

/-- `TryFrom<Blong> for B32` (src/bit32.rs lines 255-271): errors when
`len > 32`, otherwise folds the words with `blongWordsToU32`. -/
def tryFromBlongtoB32 (v : Blong) : Option (Except Unit Fx) :=
  if v.len > 32 then some (Except.error ())
  else (blongWordsToU32 v.inner 0).map (fun inner => Except.ok ⟨inner, v.len⟩)

/-- Cursor state of `Iter<T: FlagLs>` (src/flag_iter.rs lines 3-7).  The
borrowed list is represented by the `get` function passed to each
operation (the only trait methods the iterator uses are `get` and,
at construction, `len`). -/
structure IterSt where
  front : Nat
  back : Nat
deriving DecidableEq

namespace IterSt

/-- `Iter::new` (src/flag_iter.rs lines 13-15): `front = 0`, `back = len`. -/
def new (len : Nat) : IterSt :=
  ⟨0, len⟩

/-- `Iterator::next` (src/flag_iter.rs lines 23-31): `None` once
`front >= back`, otherwise yields `get(front)` and advances `front`. -/
def next (get : Nat → Option Bool) (it : IterSt) : Option Bool × IterSt :=
  if it.front ≥ it.back then (none, it)
  else (get it.front, ⟨it.front + 1, it.back⟩)

/-- `Iterator::size_hint` (src/flag_iter.rs lines 32-35):
`(back - front, Some(back - front))`. -/
def sizeHint (it : IterSt) : Nat × Option Nat :=
  (it.back - it.front, some (it.back - it.front))

/-- `DoubleEndedIterator::next_back` (src/flag_iter.rs lines 41-49):
`None` once `front >= back`, otherwise yields `get(back - 1)` and
decrements `back`. -/
def nextBack (get : Nat → Option Bool) (it : IterSt) : Option Bool × IterSt :=
  if it.front ≥ it.back then (none, it)
  else (get (it.back - 1), ⟨it.front, it.back - 1⟩)

/-- `Iterator::next` (src/flag_iter.rs lines 23-31) for an underlying
list whose `get` may itself panic, as `Blong::get` does when a needed
backing word is missing: the outer `Option` is the panic monad, the
inner `Option Bool` the iterator's return value. -/
def nextPanic (getp : Nat → Option (Option Bool)) (it : IterSt) :
    Option (Option Bool × IterSt) :=
  if it.front ≥ it.back then some (none, it)
  else (getp it.front).map (fun o => (o, ⟨it.front + 1, it.back⟩))

/-- `DoubleEndedIterator::next_back` (src/flag_iter.rs lines 41-49) for
an underlying list whose `get` may itself panic. -/
def nextBackPanic (getp : Nat → Option (Option Bool)) (it : IterSt) :
    Option (Option Bool × IterSt) :=
  if it.front ≥ it.back then some (none, it)
  else (getp (it.back - 1)).map (fun o => (o, ⟨it.front, it.back - 1⟩))

end IterSt

/-- The value `Blong::get` returns when it completes: for lists whose
needed backing words all exist (in particular under the word-count
invariant) this is exactly Rust's return value, and the iterator over
such a list behaves as the total-`get` model. -/
def Blong.getJoin (s : Blong) (i : Nat) : Option Bool :=
  (Blong.get s i).join

/-- One interleaved iterator call: a forward `next` or a backward
`next_back`. -/
inductive IterDir
  | fwd
  | bwd
deriving DecidableEq

/-- The cursor state after one call, discarding the yielded value. -/
def iterStep (get : Nat → Option Bool) (it : IterSt) : IterDir → IterSt
  | .fwd => (it.next get).2
  | .bwd => (it.nextBack get).2

/-- The cursor state after an arbitrary interleaved sequence of `next`
and `next_back` calls. -/
def iterRun (get : Nat → Option Bool) (ops : List IterDir) (it : IterSt) : IterSt :=
  ops.foldl (iterStep get) it

/-- How many flags repeated `next` calls still yield: counts the `Some`
results until the first `None`, given enough fuel. -/
def drainCount (get : Nat → Option Bool) : Nat → IterSt → Nat
  | 0, _ => 0
  | fuel + 1, it =>
    match it.next get with
    | (none, _) => 0
    | (some _, it2) => drainCount get fuel it2 + 1

/-! ### Helper lemmas -/

/-- A word sitting at position `t` of a word vector contributes at least
`w * 2^(64 t)` to the vector's value. -/
theorem wordsVal_get_le (l : List Nat) (t w : Nat) (h : l.get? t = some w) :
    w * 2 ^ (64 * t) ≤ wordsVal l := by
  induction l generalizing t with
  | nil => simp at h
  | cons w0 ws ih =>
    cases t with
    | zero =>
      simp only [List.get?] at h
      cases h
      simp [wordsVal]
    | succ t =>
      simp only [List.get?] at h
      have hle := ih t h
      calc w * 2 ^ (64 * (t + 1)) = 2 ^ 64 * (w * 2 ^ (64 * t)) := by ring
        _ ≤ 2 ^ 64 * wordsVal ws := Nat.mul_le_mul_left _ hle
        _ ≤ wordsVal (w0 :: ws) := by simp [wordsVal]

/-- If `w * 2^a < 2^n` then `w < 2^(n - a)` (with truncated subtraction). -/
theorem lt_pow_sub_of_mul_pow_lt {w a n : Nat} (h : w * 2 ^ a < 2 ^ n) :
    w < 2 ^ (n - a) := by
  rcases le_or_lt a n with hle | hlt
  · have hn : 2 ^ n = 2 ^ (n - a) * 2 ^ a := by
      rw [← pow_add]
      congr 1
      omega
    rw [hn] at h
    exact Nat.lt_of_mul_lt_mul_right h
  · have h2 : 2 ^ n ≤ 2 ^ a := Nat.pow_le_pow_right (by norm_num) hlt.le
    have hw : w = 0 := by
      by_contra hw
      have := Nat.le_mul_of_pos_left (2 ^ a) (Nat.pos_of_ne_zero hw)
      omega
    subst hw
    exact Nat.pos_pow_of_pos _ (by norm_num)

/-- Interleaved `next`/`next_back` calls keep `front ≤ back ≤ len`. -/
theorem iterRun_bounds (get : Nat → Option Bool) (len : Nat) (ops : List IterDir) :
    ∀ it : IterSt, it.front ≤ it.back → it.back ≤ len →
      (iterRun get ops it).front ≤ (iterRun get ops it).back ∧
        (iterRun get ops it).back ≤ len := by
  induction ops with
  | nil => exact fun it h1 h2 => ⟨h1, h2⟩
  | cons d ds ih =>
    intro it h1 h2
    have hstep : (iterStep get it d).front ≤ (iterStep get it d).back ∧
        (iterStep get it d).back ≤ len := by
      cases d <;> simp only [iterStep, IterSt.next, IterSt.nextBack] <;>
        split <;> simp_all <;> omega
    exact ih _ hstep.1 hstep.2

/-- With the trait contract `get i = Some _` for `i < len` and a cursor
satisfying `front ≤ back ≤ len`, draining with enough fuel yields exactly
`back - front` flags. -/
theorem drainCount_eq_sub (get : Nat → Option Bool) (len : Nat)
    (hget : ∀ i, i < len → (get i).isSome = true) :
    ∀ fuel (it : IterSt), it.front ≤ it.back → it.back ≤ len →
      it.back - it.front ≤ fuel → drainCount get fuel it = it.back - it.front := by
  intro fuel
  induction fuel with
  | zero => intro it _ _ h3; simp [drainCount]; omega
  | succ fuel ih =>
    intro it h1 h2 h3
    by_cases hfb : it.front ≥ it.back
    · simp only [drainCount, IterSt.next, if_pos hfb]
      omega
    · have hlt : it.front < it.back := by omega
      have hsome := hget it.front (by omega)
      obtain ⟨b, hb⟩ := Option.isSome_iff_exists.mp hsome
      have hrec := ih ⟨it.front + 1, it.back⟩ (by simp; omega) (by simpa using h2)
        (by simp; omega)
      simp only [drainCount, IterSt.next, if_neg hfb, hb, hrec]
      omega

/-! ### Claim theorems -/

/-- C1: the claim states that for every variant `push(flag)` followed by
`pop()` returns `Some(flag)` and restores the list.  Evaluating the code:
on a `B32` of length 31, `push(true)` succeeds (length 32) but the
following `pop()` calls `remove(31)`, whose `uper_mask(32)` computes
`1u32 << 32` — a panic — so `push` then `pop` aborts instead of returning
`Some(true)`.  By contrast the word-boundary example cited by the claim
(pushing the 65th flag onto a `Blong`, then popping it) does succeed and
restores the state, as the second conjunct shows. -/
theorem push_pop_edge_eval :
    (Fx.push 32 ⟨0, 31⟩ true).bind (Fx.pop 32) = none ∧
      (Blong.push ⟨[2 ^ 64 - 1, 0], 64⟩ true).bind Blong.pop =
        some (some true, ⟨[2 ^ 64 - 1, 0], 64⟩) := by
  constructor
  · decide
  · decide

/-- C2: the claim states that `insert(index, f)` followed by
`remove(index)` restores the original list for every `index ≤ length`
when the insert stays within capacity.  Evaluating the code on a `B32` of
length 31 at `index = 31` (a capacity-respecting append): the insert
succeeds but `remove(31)` panics in `uper_mask(32)`, so the round trip
aborts. -/
theorem insert_remove_roundtrip_eval :
    (Fx.insert 32 ⟨0, 31⟩ 31 true).bind (fun s => Fx.remove 32 s 31) = none := by
  decide

/-- C3: the claim states that after any sequence of documented mutations
all storage bits at positions `≥ length` are clear.  Evaluating a
mutation sequence built only from documented operations — start from the
empty `Blong`, `set_len(190)`, `set(126, true)`, then XOR-assign the
result into a second empty `Blong` — the buggy `BitXorAssign` pushes
`rhs.inner[1]` for every extra word, producing storage whose bit 190 is
set while the length is 190: masking the raw storage to the length no
longer yields the full storage. -/
theorem xor_breaks_above_len_invariant :
    Blong.setLen ⟨[], 0⟩ 190 = some ⟨[0, 0, 0], 190⟩ ∧
      Blong.set ⟨[0, 0, 0], 190⟩ 126 true = some ⟨[0, 2 ^ 62, 0], 190⟩ ∧
      Blong.xorAssign ⟨[], 0⟩ ⟨[0, 2 ^ 62, 0], 190⟩ =
        some ⟨[2 ^ 62, 2 ^ 62, 2 ^ 62], 190⟩ ∧
      wordsVal [2 ^ 62, 2 ^ 62, 2 ^ 62] % 2 ^ 190 ≠
        wordsVal [2 ^ 62, 2 ^ 62, 2 ^ 62] := by
  refine ⟨by decide, by decide, by decide, by decide⟩

/-- C4: the claim states that the long variant's XOR-assign combines
overlapping words with XOR and copies the longer operand's extra words
verbatim.  Evaluating the code on one-word operands `[1]` (length 1) and
`[3]` (length 2): the implementation performs AND, yielding word `1`,
whereas XOR of the words is `2`. -/
theorem blong_xor_assign_is_and_eval :
    Blong.xorAssign ⟨[1], 1⟩ ⟨[3], 2⟩ = some ⟨[1], 2⟩ ∧ Nat.xor 1 3 = 2 := by
  refine ⟨by decide, by decide⟩

/-- C5: the claim states that narrowing conversions fail exactly when the
source length exceeds the destination capacity.  Evaluating
`TryFrom<B128> for B64`: a `B128` of length 3 (well within capacity 64)
is rejected with an error, because the source's length check is inverted
(`len < MAX_LENGTH` errors); and a `B128` of length 101 holding `2^100`
— which must be rejected — instead panics in `try_into().unwrap()`. -/
theorem b128_to_b64_narrowing_eval :
    tryFromB128toB64 ⟨5, 3⟩ = some (Except.error ()) ∧
      tryFromB128toB64 ⟨2 ^ 100, 101⟩ = none :=
  ⟨rfl, rfl⟩

/-- C6: the claim states that `set_len(new_len)` completes for every
`new_len ≤ MAX_LENGTH`, including the full word width.  Evaluating the
code: `B32::set_len(32)` passes the assert but panics computing
`(1u32 << 32) - 1`, and `Blong::set_len(64)` panics computing
`(1usize << 64) - 1` for the final word mask. -/
theorem set_len_full_width_eval :
    Fx.setLen 32 ⟨0, 0⟩ 32 = none ∧ Blong.setLen ⟨[], 0⟩ 64 = none := by
  refine ⟨by decide, by decide⟩

/-- C7: the claim states that `remove(index)` completes for every
`index < length`, including the last index of a full list.  Evaluating
the code: removing index 31 of a full `B32` panics in `uper_mask(32)`,
and removing index 63 of a 64-flag `Blong` panics in `uper_mask(64)`. -/
theorem remove_top_index_eval :
    Fx.remove 32 ⟨2 ^ 32 - 1, 32⟩ 31 = none ∧
      Blong.remove ⟨[2 ^ 64 - 1, 0], 64⟩ 63 = none := by
  refine ⟨by decide, by decide⟩

/-- C8: the claim states that converting a fixed-width list to `Blong`
yields `ceil(length / 64)` words, in particular an empty word sequence
for an empty source.  Evaluating `From<Bsize> for Blong` on the empty
`Bsize`: the code unconditionally builds the one-word vector
`vec![value.as_inner()]`, so the word count is 1 while
`ceil(0 / 64) = 0`. -/
theorem from_bsize_word_count_eval :
    Blong.fromBsize ⟨0, 0⟩ = ⟨[0], 0⟩ ∧
      (Blong.fromBsize ⟨0, 0⟩).inner.length ≠
        ((Blong.fromBsize ⟨0, 0⟩).len + 63) / 64 := by
  refine ⟨by decide, by decide⟩

/-- C9 counterexample: the claim states that for every reachable `Blong`
with positive length not a multiple of 64, `list[length]` does not panic
and returns `false`.  The state `⟨[3, 0], 129⟩` is reachable by documented
mutations from the empty list — `set_len(127)` then two `insert(0, true)`
calls (the second insert fails to append the word that length 129 needs) —
its length 129 is not a multiple of 64, yet `list[129]` reads the missing
word `inner[2]` and panics. -/
theorem blong_index_at_len_panics_cex :
    Blong.setLen ⟨[], 0⟩ 127 = some ⟨[0, 0], 127⟩ ∧
      Blong.insert ⟨[0, 0], 127⟩ 0 true = some ⟨[1, 0], 128⟩ ∧
      Blong.insert ⟨[1, 0], 128⟩ 0 true = some ⟨[3, 0], 129⟩ ∧
      129 % 64 ≠ 0 ∧
      Blong.indexGet ⟨[3, 0], 129⟩ 129 = none := by
  refine ⟨by decide, by decide, by decide, by decide, by decide⟩

/-- C9 amended: for every `Blong` that satisfies the documented storage
invariants — the word count is `ceil(length / 64)` and all storage bits at
positions `≥ length` are clear — with `length` positive and not a multiple
of 64, the bracket index at `length` itself passes the (permissive)
`index > len` bound check, does not panic, and returns `false`. -/
theorem blong_index_at_len_amended (s : Blong)
    (hwords : s.inner.length = (s.len + 63) / 64)
    (hclear : wordsVal s.inner < 2 ^ s.len)
    (hmod : s.len % 64 ≠ 0) :
    Blong.indexGet s s.len = some false := by
  have ht : s.len / 64 < s.inner.length := by
    rw [hwords]
    omega
  have hw : s.inner.get? (s.len / 64) = some (s.inner.get ⟨s.len / 64, ht⟩) :=
    List.get?_eq_get ht
  have hle := wordsVal_get_le s.inner (s.len / 64) _ hw
  have hbound : s.inner.get ⟨s.len / 64, ht⟩ < 2 ^ (s.len - 64 * (s.len / 64)) :=
    lt_pow_sub_of_mul_pow_lt (lt_of_le_of_lt hle hclear)
  have hmodeq : s.len - 64 * (s.len / 64) = s.len % 64 := by omega
  rw [hmodeq] at hbound
  have hzero : s.inner.get ⟨s.len / 64, ht⟩ >>> (s.len % 64) = 0 := by
    rw [Nat.shiftRight_eq_div_pow]
    exact Nat.div_eq_of_lt hbound
  simp only [Blong.indexGet, gt_iff_lt, lt_irrefl, if_false, hw, hzero]
  simp

/-- Witness for the amended C9 theorem: the singleton list `⟨[1], 1⟩`
(one true flag) satisfies every hypothesis, and indexing it at its length
returns `false`. -/
theorem blong_index_at_len_amended_witness :
    Blong.indexGet ⟨[1], 1⟩ 1 = some false :=
  blong_index_at_len_amended ⟨[1], 1⟩ (by decide) (by decide) (by decide)

/-- C10 counterexample: the claim states that for every variant and every
list, `size_hint` reports exactly the number of flags remaining to be
yielded.  The `Blong` `⟨[3, 0], 129⟩` is reachable by documented mutations
(the conjuncts retrace the chain from the empty list), so its fresh
iterator has `front = 0`, `back = 129` and `size_hint = (129, Some 129)`;
but `get(128)` reads the absent backing word `inner[2]` and panics, so the
very first `next_back()` call aborts (and forward iteration aborts on its
129th call): 129 is not the number of flags remaining to be yielded. -/
theorem iter_size_hint_blong_cex :
    Blong.setLen ⟨[], 0⟩ 127 = some ⟨[0, 0], 127⟩ ∧
      Blong.insert ⟨[0, 0], 127⟩ 0 true = some ⟨[1, 0], 128⟩ ∧
      Blong.insert ⟨[1, 0], 128⟩ 0 true = some ⟨[3, 0], 129⟩ ∧
      IterSt.sizeHint (IterSt.new (Blong.mk [3, 0] 129).len) = (129, some 129) ∧
      IterSt.nextBackPanic (Blong.get ⟨[3, 0], 129⟩) (IterSt.new (Blong.mk [3, 0] 129).len) =
        none := by
  refine ⟨by decide, by decide, by decide, by decide, by decide⟩

/-- C10 amended: for any underlying list whose `get` honours the trait
contract — it completes and returns `Some` below the length, which every
fixed-width list satisfies unconditionally and a `Blong` satisfies when
its backing words cover its length — after every interleaved sequence of
`next` and `next_back` calls starting from a fresh iterator, `size_hint`
returns `(r, Some r)` where `r = back - front` is exactly the number of
flags still yielded: draining with fuel `r + 1` produces precisely `r`
flags (so the `r+1`-st call returns `None`). -/
theorem iter_size_hint_exact (len : Nat) (get : Nat → Option Bool)
    (hget : ∀ i, i < len → (get i).isSome = true) (ops : List IterDir) :
    IterSt.sizeHint (iterRun get ops (IterSt.new len)) =
        ((iterRun get ops (IterSt.new len)).back - (iterRun get ops (IterSt.new len)).front,
          some ((iterRun get ops (IterSt.new len)).back -
            (iterRun get ops (IterSt.new len)).front)) ∧
      drainCount get
          ((iterRun get ops (IterSt.new len)).back -
            (iterRun get ops (IterSt.new len)).front + 1)
          (iterRun get ops (IterSt.new len)) =
        (iterRun get ops (IterSt.new len)).back - (iterRun get ops (IterSt.new len)).front := by
  have hb := iterRun_bounds get len ops (IterSt.new len) (Nat.zero_le _) (le_refl _)
  exact ⟨rfl, drainCount_eq_sub get len hget _ _ hb.1 hb.2 (Nat.le_succ _)⟩

/-- Witness for the amended C10 theorem, exercising a `Blong`: the
two-flag list `⟨[3], 2⟩` satisfies the contract hypothesis (its one word
covers both flags), and after one forward `next`, `size_hint` reports
`(1, Some 1)` and draining yields exactly one flag. -/
theorem iter_size_hint_exact_witness :
    IterSt.sizeHint (iterRun (Blong.getJoin ⟨[3], 2⟩) [IterDir.fwd] (IterSt.new 2)) =
        (1, some 1) ∧
      drainCount (Blong.getJoin ⟨[3], 2⟩) 2
          (iterRun (Blong.getJoin ⟨[3], 2⟩) [IterDir.fwd] (IterSt.new 2)) =
        1 :=
  iter_size_hint_exact 2 (Blong.getJoin ⟨[3], 2⟩) (by decide) [IterDir.fwd]

end PackedFlags

